import Mathlib

/-!
Verification of the NEC infrared codec of this repository.

The sender side embeds `ir_send.py` (class `IRSender`: `_transmit_data`,
`_send_repeat_code`, `send_full_nec_hex`); the receiver side embeds
`ir_resv.py` (class `IRReceiver`: `_ir_event_handler`, `_match`,
`decode_nec`).  Pure Python functions become Lean functions; the mutable
instance attributes (`buffer`, `new_data_available`, `last_code_hex`,
`last_code_time_ms`) become explicit state records threaded through the
functions.  Times are integers (microseconds / milliseconds as in the
source); durations are natural numbers.
-/

/-! ## Sender timing constants (`ir_send.py`) -/

def NEC_HDR_MARK_US : Nat := 9000
def NEC_HDR_SPACE_US : Nat := 4500
def NEC_BIT_MARK_US : Nat := 560
def NEC_ONE_SPACE_US : Nat := 1690
def NEC_ZERO_SPACE_US : Nat := 560
def NEC_RPT_HDR_MARK_US : Nat := 9000
def NEC_RPT_SPACE_US : Nat := 2250
def NEC_RPT_BIT_MARK_US : Nat := 560
def NEC_FRAME_GAP_MS : Nat := 40

/-- One externally observable action of the sender: `_mark(d)`, `_space(d)`,
or `time.sleep_ms(m)` (the inter-frame gap, during which the carrier is off
and no segment is emitted). -/
inductive TxEvent where
  | mark (us : Nat)
  | space (us : Nat)
  | sleepMs (ms : Nat)
deriving DecidableEq

/-- The bit loop of `IRSender._transmit_data`: `for i in range(32)` emits, for
each bit most-significant first, `_mark(NEC_BIT_MARK_US)` then the one- or
zero-space chosen by `(data >> (31 - i)) & 1`.  Here the argument `n` counts
the bits still to emit, so `transmitBits data n` emits the bit at shift
`n - 1` first, down to shift `0`: `transmitBits data 32` is exactly the
source loop (shifts 31, 30, ..., 0). -/
def transmitBits (data : Nat) : Nat → List TxEvent
  | 0 => []
  | n + 1 =>
    TxEvent.mark NEC_BIT_MARK_US ::
    TxEvent.space (if (data >>> n) &&& 1 = 1 then NEC_ONE_SPACE_US else NEC_ZERO_SPACE_US) ::
    transmitBits data n

/-- `IRSender._send_repeat_code`: mark(9000), space(2250), mark(560), space(0). -/
def send_repeat_code : List TxEvent :=
  [TxEvent.mark NEC_RPT_HDR_MARK_US, TxEvent.space NEC_RPT_SPACE_US,
   TxEvent.mark NEC_RPT_BIT_MARK_US, TxEvent.space 0]

/-- The repeat loop of `IRSender._transmit_data`:
`for _ in range(num_repeats): time.sleep_ms(40); self._send_repeat_code()`. -/
def transmitRepeats : Nat → List TxEvent
  | 0 => []
  | n + 1 => TxEvent.sleepMs NEC_FRAME_GAP_MS :: (send_repeat_code ++ transmitRepeats n)

/-- `IRSender._transmit_data(data, num_repeats)`: header mark/space, the 32
data bits, the stop bit `_mark(560); _space(0)`, then the repeat loop, then a
final `time.sleep_ms(NEC_FRAME_GAP_MS)`. -/
def transmit_data (data numRepeats : Nat) : List TxEvent :=
  [TxEvent.mark NEC_HDR_MARK_US, TxEvent.space NEC_HDR_SPACE_US]
  ++ transmitBits data 32
  ++ [TxEvent.mark NEC_BIT_MARK_US, TxEvent.space 0]
  ++ transmitRepeats numRepeats
  ++ [TxEvent.sleepMs NEC_FRAME_GAP_MS]

/-- The durations of the emitted mark/space segments, in order (sleeps are
idle gaps, not segments). -/
def segDurations (evs : List TxEvent) : List Nat :=
  evs.filterMap fun e =>
    match e with
    | TxEvent.mark d => Option.some d
    | TxEvent.space d => Option.some d
    | TxEvent.sleepMs _ => Option.none

/-! ## Receiver timing constants (`ir_resv.py`) -/

def NEC_HDR_MARK : Nat := 9000
def NEC_HDR_SPACE : Nat := 4500
def NEC_BIT_MARK : Nat := 562
def NEC_ONE_SPACE : Nat := 1688
def NEC_ZERO_SPACE : Nat := 562
def NEC_RPT_SPACE : Nat := 2250
def TOLERANCE_US : Nat := 400
def INITIAL_IDLE_THRESHOLD_US : Nat := 20000
def MAX_PULSES : Nat := 100
def repeat_delay_ms : Int := 150

/-- `IRReceiver._match(measured, expected)`:
`(expected - TOLERANCE_US) <= measured <= (expected + TOLERANCE_US)`.
Computed over the integers, exactly as Python does. -/
def matchPulse (measured expected : Nat) : Bool :=
  decide ((expected : Int) - (TOLERANCE_US : Int) ≤ (measured : Int)) &&
  decide ((measured : Int) ≤ (expected : Int) + (TOLERANCE_US : Int))

/-- Result of `IRReceiver.decode_nec`.  The source returns the string
`f"ADDR: {addr:02X}, CMD: {cmd:02X} (Full: {val:08X})"` for a decoded frame,
the string `"REPEAT"` for a repeat, or Python `None`; we carry the decoded
32-bit value `val` (from which the source derives `addr` and `cmd` by the
fixed byte splits `(val >> 24) & 0xFF` and `(val >> 8) & 0xFF`). -/
inductive DecodeResult where
  | command (val : Nat)
  | rpt
  | noRes
deriving DecidableEq

/-- The bit loop of `decode_nec` (`for i in range(32)`), reading the mark at
index `2 + 2*i` and the space at index `2 + 2*i + 1`: here the loop is given
the pulse list starting at index 2 and consumes one mark/space pair per
iteration; `n` counts remaining iterations and `val` is the accumulator
(`val <<= 1; val |= 1` is written `val * 2 + 1`).  Running out of pulses is
the source's `IndexError`, caught and turned into `None`. -/
def decodeBitsAux : Nat → List Nat → Nat → Option Nat
  | 0, _, val => Option.some val
  | n + 1, m :: s :: rest, val =>
    if matchPulse m NEC_BIT_MARK then
      if matchPulse s NEC_ONE_SPACE then decodeBitsAux n rest (val * 2 + 1)
      else if matchPulse s NEC_ZERO_SPACE then decodeBitsAux n rest (val * 2)
      else Option.none
    else Option.none
  | _ + 1, _, _ => Option.none

/-- The body of `decode_nec` after the initial-idle trim: header-length
check, repeat-code check, standard header check, 32-bit loop, and (lenient,
no-op) checksum.  State is `(last_code_hex, last_code_time_ms)`; `t` is the
value of `time.ticks_ms()` during this call.  On a decoded command the
source stores the decoded string and the time; we store the decoded value. -/
def decodeTrimmed : List Nat → Option Nat → Int → Int → DecodeResult × Option Nat × Int
  | p0 :: p1 :: rest, hex, lt, t =>
    if matchPulse p0 NEC_HDR_MARK && decide (3 ≤ (p0 :: p1 :: rest).length)
        && matchPulse p1 NEC_RPT_SPACE
        && matchPulse ((p0 :: p1 :: rest).getD 2 0) NEC_BIT_MARK then
      -- repeat-shaped frame: valid only on a recent prior decode
      if hex.isSome && decide (t - lt < repeat_delay_ms * 3) then
        (DecodeResult.rpt, hex, t)
      else
        (DecodeResult.noRes, hex, lt)
    else if !matchPulse p0 NEC_HDR_MARK then (DecodeResult.noRes, hex, lt)
    else if !matchPulse p1 NEC_HDR_SPACE then (DecodeResult.noRes, hex, lt)
    else if decide ((p0 :: p1 :: rest).length < 2 + 32 * 2) then (DecodeResult.noRes, hex, lt)
    else
      match decodeBitsAux 32 rest 0 with
      | Option.none => (DecodeResult.noRes, hex, lt)
      | Option.some val =>
        -- the source here splits val into addr/not_addr/cmd/not_cmd and
        -- checks `(cmd + not_cmd) != 0xFF`, whose body is `pass`: checksum
        -- mismatch never rejects the frame.
        (DecodeResult.command val, Option.some val, t)
  | _, hex, lt, _ => (DecodeResult.noRes, hex, lt)

/-- `decode_nec` on a pulse snapshot: empty snapshot gives `None`; a first
pulse above `INITIAL_IDLE_THRESHOLD_US` is popped (idle-line lead-in), then
the trimmed list is decoded. -/
def decodePulses (pulses : List Nat) (hex : Option Nat) (lt t : Int) :
    DecodeResult × Option Nat × Int :=
  match pulses with
  | [] => (DecodeResult.noRes, hex, lt)
  | p0 :: rest =>
    if decide (INITIAL_IDLE_THRESHOLD_US < p0) then decodeTrimmed rest hex lt t
    else decodeTrimmed (p0 :: rest) hex lt t

/-! ## Capture buffer (`IRReceiver._ir_event_handler`) -/

/-- The mutable capture state of an `IRReceiver`: the pulse buffer and the
`new_data_available` flag (both mutated only by the interrupt handler and by
`decode_nec`'s snapshot). -/
structure CaptureState where
  buffer : List Nat
  new_data_available : Bool
deriving DecidableEq

/-- `IRReceiver._ir_event_handler`, given the measured pulse duration and the
pin level after the edge: durations under 100µs are glitches and ignored; a
full buffer (`len >= MAX_PULSES`) is cleared and the record dropped;
otherwise the duration is appended and the end-of-message heuristic may set
`new_data_available` (long trailing gap with pin low and more than 30 pulses,
or more than `2 + 32*2 + 1 = 67` pulses buffered). -/
def ir_event_handler (st : CaptureState) (pulse_duration pin_value : Nat) : CaptureState :=
  if pulse_duration < 100 then st
  else if MAX_PULSES ≤ st.buffer.length then { st with buffer := [] }
  else
    let buffer' := st.buffer ++ [pulse_duration]
    if pin_value = 0 ∧ 30000 < pulse_duration ∧ 30 < buffer'.length then
      { buffer := buffer', new_data_available := true }
    else if 2 + 32 * 2 + 1 < buffer'.length then
      { buffer := buffer', new_data_available := true }
    else
      { buffer := buffer', new_data_available := st.new_data_available }

/-- Full receiver state: capture buffer plus the repeat-tracking fields
`last_code_hex` (the last decoded frame, `None` before any decode) and
`last_code_time_ms`. -/
structure ReceiverState where
  capture : CaptureState
  last_code_hex : Option Nat
  last_code_time_ms : Int
deriving DecidableEq

/-- `IRReceiver.decode_nec` including its entry guard and snapshot: returns
`None` when `new_data_available` is unset; otherwise atomically takes the
buffered pulses, clears buffer and flag, and decodes the snapshot.  `t` is
the millisecond clock value during the call (the source reads `ticks_ms()`
at most twice within one call; both reads are modelled by `t`). -/
def decode_nec (st : ReceiverState) (t : Int) : DecodeResult × ReceiverState :=
  if !st.capture.new_data_available then (DecodeResult.noRes, st)
  else
    let pulses := st.capture.buffer
    let r := decodePulses pulses st.last_code_hex st.last_code_time_ms t
    (r.1, ⟨⟨[], false⟩, r.2.1, r.2.2⟩)

/-- Folding a burst of interrupt events `(duration, pin_value)` into an
initially empty capture buffer. -/
def captureFold (events : List (Nat × Nat)) : CaptureState :=
  events.foldl (fun st e => ir_event_handler st e.1 e.2) ⟨[], false⟩

/-! ## Hex-string entry point (`IRSender.send_full_nec_hex`) -/

/-- Whitespace accepted by MicroPython's `int(str, base)` around the number. -/
def isPySpace (c : Char) : Bool :=
  c.toNat = 32 ∨ c.toNat = 9 ∨ c.toNat = 10 ∨ c.toNat = 13 ∨ c.toNat = 11 ∨ c.toNat = 12

/-- Value of a hexadecimal digit character (`0`-`9`, `a`-`f`, `A`-`F`),
written with the character codes 48-57, 97-102, 65-70. -/
def hexVal? (c : Char) : Option Nat :=
  if 48 ≤ c.toNat ∧ c.toNat ≤ 57 then Option.some (c.toNat - 48)
  else if 97 ≤ c.toNat ∧ c.toNat ≤ 102 then Option.some (c.toNat - 97 + 10)
  else if 65 ≤ c.toNat ∧ c.toNat ≤ 70 then Option.some (c.toNat - 65 + 10)
  else Option.none

/-- Drop the leading whitespace that `int(str, 16)` skips. -/
def dropPySpaces : List Char → List Char
  | [] => []
  | c :: r => if isPySpace c then dropPySpaces r else c :: r

/-- The digit part of `int(str, 16)`: hexadecimal digits accumulated in base
16; underscores between digits are skipped (MicroPython's `mp_parse_num_integer`
skips them); trailing whitespace is allowed after at least one digit; any
other character is an error. -/
def parseDigitsAux : List Char → Nat → Nat → Option Nat
  | [], acc, nd => if 0 < nd then Option.some acc else Option.none
  | c :: r, acc, nd =>
    match hexVal? c with
    | Option.some v => parseDigitsAux r (acc * 16 + v) (nd + 1)
    | Option.none =>
      if c.toNat = 95 then parseDigitsAux r acc nd
      else if isPySpace c then
        if 0 < nd ∧ r.all isPySpace then Option.some acc else Option.none
      else Option.none

/-- The optional single `+`/`-` sign (codes 43/45) accepted by `int(str, 16)`. -/
def pySign : List Char → Int × List Char
  | c :: r => if c.toNat = 43 then (1, r) else if c.toNat = 45 then (-1, r) else (1, c :: r)
  | [] => (1, [])

/-- The optional `0x`/`0X` prefix (codes 48 then 120/88) accepted by
`int(str, 16)`. -/
def pyStripHexPrefix : List Char → List Char
  | c0 :: cx :: r =>
    if c0.toNat = 48 ∧ (cx.toNat = 120 ∨ cx.toNat = 88) then r else c0 :: cx :: r
  | cs => cs

/-- Modelled from the language runtime, not repository code: MicroPython's
`int(s, 16)` as used by `send_full_nec_hex` — optional surrounding
whitespace, an optional single sign, an optional `0x`/`0X` prefix, then
hexadecimal digits with underscores skipped; `Option.none` is the
`ValueError` case. -/
def pyIntParse16 (s : String) : Option Int :=
  let p := pySign (dropPySpaces s.data)
  match parseDigitsAux (pyStripHexPrefix p.2) 0 0 with
  | Option.some v => Option.some (p.1 * (v : Int))
  | Option.none => Option.none

/-- `IRSender.send_full_nec_hex(full_code_hex, num_repeats)`: returns the
success flag together with the transmitted event list (empty when the input
is rejected and no transmission is attempted).  The source rejects a
non-string or a string whose length is not 8, then parses with
`int(full_code_hex, 16)`, rejecting on `ValueError`; it then warns (but
proceeds) on checksum mismatch and transmits.  `_transmit_data` reads only
bits 0-31 of the parsed value, so transmitting `v` is transmitting
`v mod 2^32` (exact also for the negative values a `-` sign produces, whose
low bits in Python are those of the two's complement). -/
def send_full_nec_hex (full_code_hex : String) (num_repeats : Nat) : Bool × List TxEvent :=
  if full_code_hex.length ≠ 8 then (false, [])
  else
    match pyIntParse16 full_code_hex with
    | Option.none => (false, [])
    | Option.some v => (true, transmit_data ((v % ((2 : Int) ^ 32)).toNat) num_repeats)

/-! ## Predicates taken from the claims' wording (for comparison with the
source-derived definitions above) -/

/-- The claim's notion of a well-formed textual code: a string of exactly 8
hexadecimal characters. -/
def isHex8 (s : String) : Bool :=
  s.length = 8 && s.data.all fun c => (hexVal? c).isSome

/-- The claim's notion of a repeat-shaped snapshot: at least 3 pulses, first
matching the 9000µs header mark, second the 2250µs repeat space, third the
562µs bit mark. -/
def repeatShaped (ps : List Nat) : Bool :=
  match ps with
  | p0 :: p1 :: p2 :: _ =>
    matchPulse p0 NEC_HDR_MARK && matchPulse p1 NEC_RPT_SPACE && matchPulse p2 NEC_BIT_MARK
  | _ => false

/-- A chain of decode calls `(snapshot, time)` in which every snapshot is
repeat-shaped and every call happens within the 450ms window of the
previous successful decode's stored timestamp. -/
def chainOk : Int → List (List Nat × Int) → Bool
  | _, [] => true
  | lt, (ps, t) :: rest =>
    repeatShaped ps && decide (t - lt < repeat_delay_ms * 3) && chainOk t rest

/-- Run a sequence of decode calls, threading the repeat-tracking state. -/
def runDecodes : Option Nat → Int → List (List Nat × Int) → List DecodeResult
  | _, _, [] => []
  | hex, lt, (ps, t) :: rest =>
    let r := decodePulses ps hex lt t
    r.1 :: runDecodes r.2.1 r.2.2 rest

/-- The claim's hypothesis for checksum leniency: the pulses after the
header decompose into `n` mark/space pairs, each mark matching the 562µs bit
mark and each space matching the one-space or the zero-space. -/
def bitPairsOk : Nat → List Nat → Bool
  | 0, _ => true
  | n + 1, m :: s :: r =>
    matchPulse m NEC_BIT_MARK && (matchPulse s NEC_ONE_SPACE || matchPulse s NEC_ZERO_SPACE)
      && bitPairsOk n r
  | _ + 1, _ => false

/-- The zero-jitter loopback channel of the round-trip claim: the emitted
mark/space durations, in order, with the sub-100µs glitches dropped exactly
as `_ir_event_handler` drops them (this removes only the 0µs stop space). -/
def loopbackPulses (f : Nat) : List Nat :=
  (segDurations (transmit_data f 0)).filter fun d => !decide (d < 100)

/-- Modelled from the claim's words (steps 4-5 of the spec's emission
sequence), for comparison with `transmit_data`: after the stop bit a 40ms
gap, then for each repeat a 40ms wait, the repeat frame, and another 40ms
gap. -/
def claimedTransmitData (data numRepeats : Nat) : List TxEvent :=
  [TxEvent.mark NEC_HDR_MARK_US, TxEvent.space NEC_HDR_SPACE_US]
  ++ transmitBits data 32
  ++ [TxEvent.mark NEC_BIT_MARK_US, TxEvent.space 0]
  ++ [TxEvent.sleepMs NEC_FRAME_GAP_MS]
  ++ (List.replicate numRepeats
      (TxEvent.sleepMs NEC_FRAME_GAP_MS :: (send_repeat_code ++ [TxEvent.sleepMs NEC_FRAME_GAP_MS]))).flatten

-- sanity checks on concrete inputs (kept as examples, they are proofs)
example : matchPulse 560 NEC_BIT_MARK = true := by decide
example : matchPulse 1690 NEC_ONE_SPACE = true := by decide
example : matchPulse 560 NEC_ONE_SPACE = false := by decide
example : matchPulse 4500 NEC_RPT_SPACE = false := by decide
example : (decodePulses [9000, 2250, 562] (Option.some 5) 0 100).1 = DecodeResult.rpt := by decide
example : (decodePulses [9000, 2250, 562] Option.none 0 100).1 = DecodeResult.noRes := by decide
example : (decodePulses (loopbackPulses 0x768910EF) Option.none 0 0).1
    = DecodeResult.command 0x768910EF := by decide
example : pyIntParse16 "+1234567" = Option.some 0x1234567 := by decide
example : pyIntParse16 "0x12345z" = Option.none := by decide
example : (send_full_nec_hex "+1234567" 0).1 = true := by decide
example : isHex8 "+1234567" = false := by decide
example : isHex8 "768910EF" = true := by decide

/-! ## Helper lemmas -/

lemma transmitBits_length (d : Nat) : ∀ n, (transmitBits d n).length = 2 * n := by
  intro n
  induction n with
  | zero => rfl
  | succ k ih => simp [transmitBits, ih]; omega

lemma segDurations_append (a b : List TxEvent) :
    segDurations (a ++ b) = segDurations a ++ segDurations b := by
  simp [segDurations]

lemma segDurations_transmitBits_length (d : Nat) :
    ∀ n, (segDurations (transmitBits d n)).length = 2 * n := by
  intro n
  induction n with
  | zero => rfl
  | succ k ih =>
    simp only [transmitBits, segDurations, List.filterMap_cons] at ih ⊢
    simp [ih]; omega

lemma transmitRepeats_eq_flatten : ∀ n, transmitRepeats n
    = (List.replicate n (TxEvent.sleepMs NEC_FRAME_GAP_MS :: send_repeat_code)).flatten := by
  intro n
  induction n with
  | zero => rfl
  | succ k ih => simp [transmitRepeats, List.replicate_succ, ih]

/-- `TxEvent.sleepMs` detector, for counting the 40ms waits. -/
def isSleep : TxEvent → Bool
  | TxEvent.sleepMs _ => true
  | _ => false

lemma countP_isSleep_transmitBits (d : Nat) :
    ∀ n, (transmitBits d n).countP isSleep = 0 := by
  intro n
  induction n with
  | zero => rfl
  | succ k ih =>
    simp only [transmitBits, List.countP_cons] at ih ⊢
    simp [ih, isSleep]

lemma countP_isSleep_transmitRepeats :
    ∀ n, (transmitRepeats n).countP isSleep = n := by
  intro n
  induction n with
  | zero => rfl
  | succ k ih =>
    simp only [transmitRepeats, List.countP_cons, List.countP_append] at ih ⊢
    simp [ih, isSleep, send_repeat_code]

/-! ## Claims -/

/-- C5: `IRReceiver._match` accepts every measured duration within ±399µs of
the expected constant, rejects every one at distance ≥ 401µs, and accepts at
exactly ±400µs (the bound is inclusive). -/
theorem c5_tolerance (expected measured : Nat) :
    ((((measured : Int) - (expected : Int)).natAbs ≤ 399 → matchPulse measured expected = true)
    ∧ (401 ≤ (((measured : Int) - (expected : Int))).natAbs → matchPulse measured expected = false))
    ∧ ((((measured : Int) - (expected : Int))).natAbs = 400 → matchPulse measured expected = true) := by
  simp only [matchPulse, TOLERANCE_US, Bool.and_eq_true, decide_eq_true_eq,
    Bool.and_eq_false_iff, decide_eq_false_iff_not]
  constructor
  · constructor
    · intro h; omega
    · intro h; omega
  · intro h; omega

/-- C5 witness: the three regimes at the 9000µs header-mark constant. -/
theorem c5_tolerance_witness :
    matchPulse 8601 9000 = true ∧ matchPulse 9401 9000 = false ∧ matchPulse 8600 9000 = true :=
  ⟨(c5_tolerance 9000 8601).1.1 (by decide),
   (c5_tolerance 9000 9401).1.2 (by decide),
   (c5_tolerance 9000 8600).2 (by decide)⟩

/-- C4 counterexample: with 1 repeat the claimed wait sequence (a 40ms gap
after the stop bit, then a 40ms wait before and another after the repeat
frame, three waits in all) differs from what `_transmit_data` emits (one
40ms wait before the repeat frame and one final 40ms gap, two waits). -/
theorem c4_repeat_gaps_cex : transmit_data 0 1 ≠ claimedTransmitData 0 1 := by decide

/-- C4 amended: after the stop bit, for each of the `n` requested repeats the
encoder waits 40ms and then emits one repeat frame — mark(9000), space(2250),
mark(560), space(0) — and a single 40ms gap follows the last repeat frame (or
the stop bit when `n = 0`); so a transmission with `n` repeats contains
exactly `n` repeat frames and exactly `n + 1` waits of 40ms. -/
theorem c4_repeat_gaps_amended (d n : Nat) :
    transmit_data d n
      = [TxEvent.mark NEC_HDR_MARK_US, TxEvent.space NEC_HDR_SPACE_US]
        ++ transmitBits d 32
        ++ [TxEvent.mark NEC_BIT_MARK_US, TxEvent.space 0]
        ++ (List.replicate n (TxEvent.sleepMs NEC_FRAME_GAP_MS :: send_repeat_code)).flatten
        ++ [TxEvent.sleepMs NEC_FRAME_GAP_MS]
    ∧ (transmit_data d n).countP isSleep = n + 1 := by
  constructor
  · simp [transmit_data, transmitRepeats_eq_flatten]
  · simp [transmit_data, List.countP_append, List.countP_cons,
      countP_isSleep_transmitBits, countP_isSleep_transmitRepeats, isSleep]

/-- C8: encoding any code with 0 repeats emits the header mark(9000) and
space(4500), then for each of the 32 bits most-significant first a mark(560)
followed by space(1690) for a 1 bit or space(560) for a 0 bit, then the stop
mark(560) and a zero-length space — 68 timed segments in all — followed by a
trailing 40ms gap and no repeat frames. -/
theorem c8_encode_segments (d : Nat) :
    (transmit_data d 0
      = ([TxEvent.mark 9000, TxEvent.space 4500]
          ++ transmitBits d 32
          ++ [TxEvent.mark 560, TxEvent.space 0]) ++ [TxEvent.sleepMs 40]
    ∧ transmitBits d 32
      = (List.range 32).flatMap fun i =>
          [TxEvent.mark 560,
           TxEvent.space (if (d >>> (31 - i)) &&& 1 = 1 then 1690 else 560)])
    ∧ (segDurations (transmit_data d 0)).length = 68 := by
  refine ⟨⟨rfl, rfl⟩, ?_⟩
  simp only [transmit_data, transmitRepeats, List.append_nil, segDurations_append,
    List.length_append, segDurations_transmitBits_length]
  decide

lemma matchPulse_bounds {m e : Nat} (h : matchPulse m e = true) :
    (e : Int) - 400 ≤ (m : Int) ∧ (m : Int) ≤ (e : Int) + 400 := by
  simp only [matchPulse, TOLERANCE_US, Bool.and_eq_true, decide_eq_true_eq,
    Nat.cast_ofNat] at h
  exact h

/-- Behaviour of `decode_nec` on a repeat-shaped snapshot: the three leading
pulses match header mark, repeat space and bit mark, so the repeat branch is
taken and the result depends only on the repeat-tracking state; the standard
header parsing is never reached. -/
lemma decode_repeat_eq (p0 p1 p2 : Nat) (r : List Nat) (hex : Option Nat) (lt t : Int)
    (h0 : matchPulse p0 NEC_HDR_MARK = true)
    (h1 : matchPulse p1 NEC_RPT_SPACE = true)
    (h2 : matchPulse p2 NEC_BIT_MARK = true) :
    decodePulses (p0 :: p1 :: p2 :: r) hex lt t
      = if hex.isSome && decide (t - lt < repeat_delay_ms * 3)
        then (DecodeResult.rpt, hex, t)
        else (DecodeResult.noRes, hex, lt) := by
  have hb := matchPulse_bounds h0
  have hp0 : ¬ (INITIAL_IDLE_THRESHOLD_US < p0) := by
    simp only [NEC_HDR_MARK] at hb
    simp only [INITIAL_IDLE_THRESHOLD_US]
    omega
  have hlen : (3 : Nat) ≤ (p0 :: p1 :: p2 :: r).length := by simp
  simp [decodePulses, hp0, decodeTrimmed, h0, h1, h2, hlen]

/-- C2: on a repeat-shaped snapshot (first pulse matching the 9000µs header
mark, at least three pulses, second matching the 2250µs repeat space, third
matching the 562µs bit mark), `decode_nec` yields `Repeat` exactly when a
prior command was decoded (`last_code_hex` set) and the call happens
strictly less than `repeat_delay_ms * 3 = 450`ms after the stored decode
timestamp, and `None` otherwise; it never falls through to standard header
parsing (the result is fully determined by this window test).  In
particular, with the state left by a command decode at time `t0`, a
repeat-shaped snapshot at `t0 + 449` yields `Repeat` and one at `t0 + 451`
yields `None`. -/
theorem c2_repeat_window :
    (∀ (p0 p1 p2 : Nat) (r : List Nat) (hex : Option Nat) (lt t : Int),
      matchPulse p0 NEC_HDR_MARK = true →
      matchPulse p1 NEC_RPT_SPACE = true →
      matchPulse p2 NEC_BIT_MARK = true →
      decodePulses (p0 :: p1 :: p2 :: r) hex lt t
        = if hex.isSome && decide (t - lt < repeat_delay_ms * 3)
          then (DecodeResult.rpt, hex, t)
          else (DecodeResult.noRes, hex, lt))
    ∧ (∀ (v : Nat) (t0 : Int),
        (decodePulses [9000, 2250, 562] (Option.some v) t0 (t0 + 449)).1 = DecodeResult.rpt)
    ∧ (∀ (v : Nat) (t0 : Int),
        (decodePulses [9000, 2250, 562] (Option.some v) t0 (t0 + 451)).1 = DecodeResult.noRes) := by
  refine ⟨decode_repeat_eq, ?_, ?_⟩
  · intro v t0
    rw [decode_repeat_eq 9000 2250 562 [] (Option.some v) t0 (t0 + 449)
      (by decide) (by decide) (by decide)]
    have hc : ((Option.some v).isSome && decide (t0 + 449 - t0 < repeat_delay_ms * 3)) = true := by
      simp [repeat_delay_ms]
    rw [hc]
    rfl
  · intro v t0
    rw [decode_repeat_eq 9000 2250 562 [] (Option.some v) t0 (t0 + 451)
      (by decide) (by decide) (by decide)]
    have hc : ((Option.some v).isSome && decide (t0 + 451 - t0 < repeat_delay_ms * 3)) = false := by
      simp [repeat_delay_ms]
    rw [hc]
    rfl

/-- C2 witness: concrete repeat-shaped snapshot 449ms and 451ms after a
command decode stored at time 0. -/
theorem c2_repeat_window_witness :
    decodePulses [9000, 2250, 562] (Option.some 0x768910EF) 0 449
      = (DecodeResult.rpt, Option.some 0x768910EF, 449)
    ∧ (decodePulses [9000, 2250, 562] (Option.some 0x768910EF) 0 451).1 = DecodeResult.noRes := by
  constructor
  · rw [c2_repeat_window.1 9000 2250 562 [] (Option.some 0x768910EF) 0 449
      (by decide) (by decide) (by decide)]
    decide
  · rw [c2_repeat_window.1 9000 2250 562 [] (Option.some 0x768910EF) 0 451
      (by decide) (by decide) (by decide)]
    decide

lemma decodeTrimmed_rpt_or (ps : List Nat) (hex : Option Nat) (lt t : Int) :
    decodeTrimmed ps hex lt t = (DecodeResult.rpt, hex, t)
    ∨ (decodeTrimmed ps hex lt t).1 ≠ DecodeResult.rpt := by
  match ps with
  | [] => right; simp [decodeTrimmed]
  | [p] => right; simp [decodeTrimmed]
  | p0 :: p1 :: rest =>
    simp only [decodeTrimmed]
    split
    · split
      · left; rfl
      · right; simp
    · split
      · right; simp
      · split
        · right; simp
        · split
          · right; simp
          · split
            · right; simp
            · right; simp

lemma decodePulses_rpt (ps : List Nat) (hex : Option Nat) (lt t : Int)
    (h : (decodePulses ps hex lt t).1 = DecodeResult.rpt) :
    decodePulses ps hex lt t = (DecodeResult.rpt, hex, t) := by
  match ps with
  | [] => simp [decodePulses] at h
  | p0 :: rest =>
    by_cases hc : INITIAL_IDLE_THRESHOLD_US < p0
    · simp only [decodePulses, decide_eq_true_eq] at h ⊢
      rw [if_pos hc] at h ⊢
      rcases decodeTrimmed_rpt_or rest hex lt t with he | hne
      · exact he
      · exact absurd h hne
    · simp only [decodePulses, decide_eq_true_eq] at h ⊢
      rw [if_neg hc] at h ⊢
      rcases decodeTrimmed_rpt_or (p0 :: rest) hex lt t with he | hne
      · exact he
      · exact absurd h hne

/-- C10: whenever `decode_nec` returns `Repeat` it leaves `last_code_hex`
unchanged and moves `last_code_time_ms` to the current time; consequently a
chain of repeat-shaped snapshots, each arriving within the 450ms window of
the immediately preceding successful decode, yields `Repeat` at every step,
with no bound on the total elapsed time since the original command decode. -/
theorem c10_repeat_refresh :
    (∀ (ps : List Nat) (hex : Option Nat) (lt t : Int),
      (decodePulses ps hex lt t).1 = DecodeResult.rpt →
      decodePulses ps hex lt t = (DecodeResult.rpt, hex, t))
    ∧ (∀ (items : List (List Nat × Int)) (hex : Option Nat) (lt : Int),
        hex.isSome = true → chainOk lt items = true →
        runDecodes hex lt items = List.replicate items.length DecodeResult.rpt) := by
  constructor
  · exact decodePulses_rpt
  · intro items
    induction items with
    | nil => intro hex lt _ _; rfl
    | cons it rest ih =>
      intro hex lt hs hc
      obtain ⟨ps, t⟩ := it
      simp only [chainOk, Bool.and_eq_true] at hc
      obtain ⟨⟨hshape, htime⟩, hchain⟩ := hc
      match ps with
      | [] => simp [repeatShaped] at hshape
      | [a] => simp [repeatShaped] at hshape
      | [a, b] => simp [repeatShaped] at hshape
      | p0 :: p1 :: p2 :: r =>
        simp only [repeatShaped, Bool.and_eq_true] at hshape
        obtain ⟨⟨h0, h1⟩, h2⟩ := hshape
        simp only [runDecodes]
        rw [decode_repeat_eq p0 p1 p2 r hex lt t h0 h1 h2]
        have hcond : (hex.isSome && decide (t - lt < repeat_delay_ms * 3)) = true := by
          rw [hs, htime]
          rfl
        rw [hcond]
        simp only [if_true, List.length_cons, List.replicate_succ]
        exact congrArg (List.cons DecodeResult.rpt) (ih hex t hs hchain)

/-- C10 witness: a command decode stored at time 0 followed by three
repeat-shaped snapshots at 400, 800 and 1200ms — each within 450ms of the
previous decode but the last 1200ms after the command — all yield `Repeat`. -/
theorem c10_repeat_refresh_witness :
    runDecodes (Option.some 0x768910EF) 0
        [([9000, 2250, 562], 400), ([9000, 2250, 562], 800), ([9000, 2250, 562], 1200)]
      = List.replicate 3 DecodeResult.rpt :=
  c10_repeat_refresh.2
    [([9000, 2250, 562], 400), ([9000, 2250, 562], 800), ([9000, 2250, 562], 1200)]
    (Option.some 0x768910EF) 0 (by decide) (by decide)

/-- C9: a first pulse above `INITIAL_IDLE_THRESHOLD_US = 20000`µs is
discarded before any protocol check — the decode continues on the remaining
pulses exactly as if they had been the whole snapshot, and `decodeTrimmed`
performs no further discarding, so only the first pulse is ever dropped this
way; a lone such pulse leaves nothing and yields `None`; and a 25000µs pulse
followed by a valid standard frame decodes to that frame. -/
theorem c9_leadin_discard :
    (∀ (d : Nat) (ps : List Nat) (hex : Option Nat) (lt t : Int),
      INITIAL_IDLE_THRESHOLD_US < d →
      decodePulses (d :: ps) hex lt t = decodeTrimmed ps hex lt t)
    ∧ (∀ (hex : Option Nat) (lt t : Int) (d : Nat),
        INITIAL_IDLE_THRESHOLD_US < d →
        decodePulses [d] hex lt t = (DecodeResult.noRes, hex, lt))
    ∧ (decodePulses (25000 :: loopbackPulses 0x768910EF) Option.none 0 0).1
        = DecodeResult.command 0x768910EF := by
  refine ⟨?_, ?_, by decide⟩
  · intro d ps hex lt t h
    simp only [decodePulses, decide_eq_true_eq]
    rw [if_pos h]
  · intro hex lt t d h
    simp only [decodePulses, decide_eq_true_eq]
    rw [if_pos h]
    rfl

/-- C9 witness: the discard equation at the concrete lead-in pulse 25000µs. -/
theorem c9_leadin_discard_witness :
    decodePulses [25000, 9000] Option.none 0 0 = decodeTrimmed [9000] Option.none 0 0 :=
  c9_leadin_discard.1 25000 [9000] Option.none 0 0 (by decide)

lemma segDurations_cons_mark (d : Nat) (l : List TxEvent) :
    segDurations (TxEvent.mark d :: l) = d :: segDurations l := by
  simp [segDurations]

lemma segDurations_cons_space (d : Nat) (l : List TxEvent) :
    segDurations (TxEvent.space d :: l) = d :: segDurations l := by
  simp [segDurations]

/-- Behaviour of `decode_nec` on a standard-header snapshot: repeat branch
not taken (a header space cannot match the repeat space), header accepted,
and the bit loop's outcome decides the rest; there is no checksum gate. -/
lemma decode_std_eq (p0 p1 : Nat) (rest : List Nat) (hex : Option Nat) (lt t : Int) (v : Nat)
    (h0 : matchPulse p0 NEC_HDR_MARK = true)
    (h1 : matchPulse p1 NEC_HDR_SPACE = true)
    (hlen : 2 + 32 * 2 ≤ (p0 :: p1 :: rest).length)
    (hbits : decodeBitsAux 32 rest 0 = Option.some v) :
    decodePulses (p0 :: p1 :: rest) hex lt t = (DecodeResult.command v, Option.some v, t) := by
  have hb0 := matchPulse_bounds h0
  have hb1 := matchPulse_bounds h1
  have hp0 : ¬ (INITIAL_IDLE_THRESHOLD_US < p0) := by
    simp only [NEC_HDR_MARK] at hb0
    simp only [INITIAL_IDLE_THRESHOLD_US]
    omega
  have hnr : matchPulse p1 NEC_RPT_SPACE = false := by
    have hgt : ¬ ((p1 : Int) ≤ (NEC_RPT_SPACE : Int) + (TOLERANCE_US : Int)) := by
      simp only [NEC_HDR_SPACE] at hb1
      simp only [NEC_RPT_SPACE, TOLERANCE_US]
      push_cast
      omega
    simp [matchPulse, hgt]
  have hlt : ¬ ((p0 :: p1 :: rest).length < 2 + 32 * 2) := by omega
  simp only [decodePulses, decide_eq_true_eq]
  rw [if_neg hp0]
  simp only [decodeTrimmed, hnr, h0, h1, Bool.and_false, Bool.false_and,
    Bool.not_true, Bool.false_eq_true, if_false, decide_eq_true_eq]
  rw [if_neg hlt, hbits]

/-- Round-trip of the bit loops: the receiver's bit loop, run on the
durations emitted by the sender's bit loop (each mark 560µs matching the
562µs bit mark, each one-space 1690µs matching 1688µs, each zero-space
560µs matching 562µs and not 1688µs), reconstructs the transmitted low `n`
bits on top of the accumulator.  Any trailing pulses are ignored, as the
source loop stops after 32 iterations. -/
lemma decodeBits_transmitBits (d : Nat) :
    ∀ (n : Nat) (tail : List Nat) (acc : Nat),
      decodeBitsAux n (segDurations (transmitBits d n) ++ tail) acc
        = Option.some (acc * 2 ^ n + d % 2 ^ n) := by
  intro n
  induction n with
  | zero =>
    intro tail acc
    simp [transmitBits, segDurations, decodeBitsAux, Nat.mod_one]
  | succ k ih =>
    intro tail acc
    rw [transmitBits, segDurations_cons_mark, segDurations_cons_space,
      List.cons_append, List.cons_append]
    have hmod : d % 2 ^ (k + 1) = d % 2 ^ k + 2 ^ k * (d / 2 ^ k % 2) := by
      rw [pow_succ, Nat.mod_mul]
    have hbit : (d >>> k) &&& 1 = d / 2 ^ k % 2 := by
      rw [Nat.and_one_is_mod, Nat.shiftRight_eq_div_pow]
    by_cases hb : (d >>> k) &&& 1 = 1
    · rw [if_pos hb]
      simp only [decodeBitsAux,
        show matchPulse NEC_BIT_MARK_US NEC_BIT_MARK = true from by decide,
        show matchPulse NEC_ONE_SPACE_US NEC_ONE_SPACE = true from by decide,
        if_true]
      rw [ih tail (acc * 2 + 1)]
      rw [hmod, show d / 2 ^ k % 2 = 1 from by omega]
      congr 1
      ring
    · rw [if_neg hb]
      simp only [decodeBitsAux,
        show matchPulse NEC_BIT_MARK_US NEC_BIT_MARK = true from by decide,
        show matchPulse NEC_ZERO_SPACE_US NEC_ONE_SPACE = false from by decide,
        show matchPulse NEC_ZERO_SPACE_US NEC_ZERO_SPACE = true from by decide,
        if_true, Bool.false_eq_true, if_false]
      rw [ih tail (acc * 2)]
      rw [hmod, show d / 2 ^ k % 2 = 0 from by omega]
      congr 1
      ring

lemma filter_segDurations_transmitBits (d : Nat) :
    ∀ n, (segDurations (transmitBits d n)).filter (fun x => !decide (x < 100))
      = segDurations (transmitBits d n) := by
  intro n
  induction n with
  | zero => rfl
  | succ k ih =>
    rw [transmitBits, segDurations_cons_mark, segDurations_cons_space]
    by_cases hb : (d >>> k) &&& 1 = 1
    · rw [if_pos hb]
      simp [List.filter_cons, ih, NEC_BIT_MARK_US, NEC_ONE_SPACE_US]
    · rw [if_neg hb]
      simp [List.filter_cons, ih, NEC_BIT_MARK_US, NEC_ZERO_SPACE_US]

/-- The loopback snapshot of a frame: header durations, the 64 bit segment
durations unchanged (all are 560 or 1690, hence at least 100µs), the stop
mark, and the 0µs stop space dropped by the glitch filter. -/
lemma loopbackPulses_eq (f : Nat) :
    loopbackPulses f
      = NEC_HDR_MARK_US :: NEC_HDR_SPACE_US ::
        (segDurations (transmitBits f 32) ++ [NEC_BIT_MARK_US]) := by
  have h : segDurations (transmit_data f 0)
      = NEC_HDR_MARK_US :: NEC_HDR_SPACE_US ::
        (segDurations (transmitBits f 32) ++ [NEC_BIT_MARK_US, 0]) := by
    rw [transmit_data, transmitRepeats]
    rw [segDurations_append, segDurations_append, segDurations_append, segDurations_append]
    rw [show segDurations [TxEvent.mark NEC_HDR_MARK_US, TxEvent.space NEC_HDR_SPACE_US]
        = [NEC_HDR_MARK_US, NEC_HDR_SPACE_US] from rfl]
    rw [show segDurations [TxEvent.mark NEC_BIT_MARK_US, TxEvent.space 0]
        = [NEC_BIT_MARK_US, 0] from rfl]
    rw [show segDurations ([] : List TxEvent) = [] from rfl]
    rw [show segDurations [TxEvent.sleepMs NEC_FRAME_GAP_MS] = [] from rfl]
    simp
  rw [loopbackPulses, h]
  simp only [List.filter_cons, List.filter_append, filter_segDurations_transmitBits]
  simp [NEC_HDR_MARK_US, NEC_HDR_SPACE_US, NEC_BIT_MARK_US]

/-- C1: round-trip law.  For every 32-bit frame, the pulse snapshot obtained
by feeding the durations emitted by `_transmit_data(f, 0)` through the
capture glitch filter (which drops only the 0µs stop space) is decoded by
`decode_nec` into a command carrying exactly `f`, in any prior repeat state
and at any time; the state is updated to remember `f` at that time. -/
theorem c1_roundtrip (f : Nat) (hf : f < 2 ^ 32) (hex : Option Nat) (lt t : Int) :
    decodePulses (loopbackPulses f) hex lt t
      = (DecodeResult.command f, Option.some f, t) := by
  rw [loopbackPulses_eq]
  apply decode_std_eq
  · decide
  · decide
  · rw [List.length_cons, List.length_cons, List.length_append,
      segDurations_transmitBits_length]
    simp
  · rw [decodeBits_transmitBits f 32 [NEC_BIT_MARK_US] 0]
    have hm : f % 2 ^ 32 = f := Nat.mod_eq_of_lt hf
    rw [Nat.zero_mul, Nat.zero_add, hm]

/-- C1 witness: the concrete frame 0x768910EF survives the loopback. -/
theorem c1_roundtrip_witness :
    0x768910EF < 2 ^ 32
    ∧ decodePulses (loopbackPulses 0x768910EF) Option.none 0 0
        = (DecodeResult.command 0x768910EF, Option.some 0x768910EF, 0) :=
  ⟨by decide, c1_roundtrip 0x768910EF (by decide) Option.none 0 0⟩

lemma bitPairsOk_length : ∀ (n : Nat) (r : List Nat), bitPairsOk n r = true → 2 * n ≤ r.length := by
  intro n
  induction n with
  | zero => intro r _; simp
  | succ k ih =>
    intro r h
    match r with
    | [] => simp [bitPairsOk] at h
    | [m] => simp [bitPairsOk] at h
    | m :: s :: rest =>
      simp only [bitPairsOk, Bool.and_eq_true] at h
      have := ih rest h.2
      simp only [List.length_cons]
      omega

lemma bitPairsOk_decode : ∀ (n : Nat) (r : List Nat) (acc : Nat), bitPairsOk n r = true →
    ∃ v, decodeBitsAux n r acc = Option.some v := by
  intro n
  induction n with
  | zero => intro r acc _; exact ⟨acc, rfl⟩
  | succ k ih =>
    intro r acc h
    match r with
    | [] => simp [bitPairsOk] at h
    | [m] => simp [bitPairsOk] at h
    | m :: s :: rest =>
      simp only [bitPairsOk, Bool.and_eq_true, Bool.or_eq_true] at h
      obtain ⟨⟨hm, hs⟩, hrest⟩ := h
      by_cases hone : matchPulse s NEC_ONE_SPACE = true
      · simp only [decodeBitsAux, hm, hone, if_true]
        exact ih rest (acc * 2 + 1) hrest
      · have hzero : matchPulse s NEC_ZERO_SPACE = true := by
          rcases hs with h1 | h0
          · exact absurd h1 hone
          · exact h0
        simp only [decodeBitsAux, hm, hzero, if_true]
        rw [Bool.not_eq_true] at hone
        simp only [hone, Bool.false_eq_true, if_false]
        exact ih rest (acc * 2) hrest

/-- C7: checksum leniency.  For every snapshot whose two header pulses match
the 9000µs mark and 4500µs space and whose following 32 mark/space pairs all
match within tolerance, `decode_nec` returns a command carrying the decoded
32-bit value and updates the repeat state — with no hypothesis whatsoever on
the address or command checksum bytes of that value; the source computes the
checksum comparison but its body is `pass`, so a mismatch never rejects. -/
theorem c7_checksum_lenient (p0 p1 : Nat) (rest : List Nat) (hex : Option Nat) (lt t : Int)
    (h0 : matchPulse p0 NEC_HDR_MARK = true)
    (h1 : matchPulse p1 NEC_HDR_SPACE = true)
    (hb : bitPairsOk 32 rest = true) :
    ∃ v, decodePulses (p0 :: p1 :: rest) hex lt t
      = (DecodeResult.command v, Option.some v, t) := by
  obtain ⟨v, hv⟩ := bitPairsOk_decode 32 rest 0 hb
  refine ⟨v, decode_std_eq p0 p1 rest hex lt t v h0 h1 ?_ hv⟩
  have := bitPairsOk_length 32 rest hb
  simp only [List.length_cons]
  omega

/-- C7 witness: an all-zero-bit frame — its value 0x00000000 violates both
checksums (0 ⨁ 0 ≠ 0xFF) — is still decoded as a command. -/
theorem c7_checksum_lenient_witness :
    ∃ v, decodePulses (9000 :: 4500 :: (List.replicate 32 ([560, 560] : List Nat)).flatten)
        Option.none 0 7
      = (DecodeResult.command v, Option.some v, 7) :=
  c7_checksum_lenient 9000 4500 ((List.replicate 32 ([560, 560] : List Nat)).flatten)
    Option.none 0 7 (by decide) (by decide) (by decide)

lemma handler_append (st : CaptureState) (d lv : Nat) (hd : 100 ≤ d)
    (hlen : st.buffer.length < MAX_PULSES) :
    (ir_event_handler st d lv).buffer = st.buffer ++ [d] := by
  rw [ir_event_handler, if_neg (show ¬ d < 100 by omega),
    if_neg (show ¬ MAX_PULSES ≤ st.buffer.length by omega)]
  dsimp only
  split
  · rfl
  · split <;> rfl

lemma captureFold_fill : ∀ (ds : List (Nat × Nat)) (st : CaptureState),
    (∀ x ∈ ds, 100 ≤ x.1) → st.buffer.length + ds.length ≤ MAX_PULSES →
    (ds.foldl (fun s e => ir_event_handler s e.1 e.2) st).buffer
      = st.buffer ++ ds.map (fun x => x.1) := by
  intro ds
  induction ds with
  | nil => intro st _ _; simp
  | cons e rest ih =>
    intro st hall hlen
    simp only [List.foldl_cons, List.map_cons]
    have he : 100 ≤ e.1 := hall e (List.mem_cons_self e rest)
    have hroom : st.buffer.length < MAX_PULSES := by
      simp only [List.length_cons] at hlen
      omega
    have happ := handler_append st e.1 e.2 he hroom
    rw [ih (ir_event_handler st e.1 e.2)
      (fun x hx => hall x (List.mem_cons_of_mem e hx))
      (by rw [happ]; simp only [List.length_append, List.length_cons] at hlen ⊢; simp; omega)]
    rw [happ, List.append_assoc]
    rfl

/-- C6: when the capture buffer holds exactly its `MAX_PULSES = 100`
capacity, any further accepted record (duration at least 100µs) clears the
buffer entirely and drops the incoming record, leaving all other state
untouched; consequently 101 consecutive valid pulses fed into an empty
buffer leave it empty, and a subsequent `decode_nec` call returns `None`
(whether or not the readiness flag was set along the way). -/
theorem c6_overflow_clear :
    (∀ (st : CaptureState) (d lv : Nat), st.buffer.length = MAX_PULSES → 100 ≤ d →
      ir_event_handler st d lv = { st with buffer := [] })
    ∧ (∀ (ds : List (Nat × Nat)), ds.length = 101 → (∀ x ∈ ds, 100 ≤ x.1) →
        (captureFold ds).buffer = []
        ∧ ∀ (hex : Option Nat) (lt t : Int),
            (decode_nec ⟨captureFold ds, hex, lt⟩ t).1 = DecodeResult.noRes) := by
  have hfull : ∀ (st : CaptureState) (d lv : Nat), st.buffer.length = MAX_PULSES → 100 ≤ d →
      ir_event_handler st d lv = { st with buffer := [] } := by
    intro st d lv hl hd
    rw [ir_event_handler, if_neg (show ¬ d < 100 by omega),
      if_pos (show MAX_PULSES ≤ st.buffer.length by omega)]
  refine ⟨hfull, ?_⟩
  intro ds hlen hall
  have hds : ds = ds.take 100 ++ ds.drop 100 := (List.take_append_drop 100 ds).symm
  have htake_len : (ds.take 100).length = 100 := by
    rw [List.length_take]
    omega
  have hdrop_len : (ds.drop 100).length = 1 := by
    rw [List.length_drop]
    omega
  obtain ⟨x, hx⟩ : ∃ x, ds.drop 100 = [x] := by
    match h : ds.drop 100 with
    | [x] => exact ⟨x, rfl⟩
    | [] => rw [h] at hdrop_len; simp at hdrop_len
    | a :: b :: r => rw [h] at hdrop_len; simp at hdrop_len
  have hfill := captureFold_fill (ds.take 100) ⟨[], false⟩
    (fun y hy => hall y (List.mem_of_mem_take hy))
    (by simp only [htake_len]; decide)
  have hlen100 :
      ((ds.take 100).foldl (fun s e => ir_event_handler s e.1 e.2) ⟨[], false⟩).buffer.length
        = MAX_PULSES := by
    rw [hfill]
    simp only [List.nil_append, List.length_map, htake_len]
    rfl
  have hxin : 100 ≤ x.1 := by
    refine hall x ?_
    rw [hds]
    refine List.mem_append_right _ ?_
    rw [hx]
    exact List.mem_singleton_self x
  have hbuf : (captureFold ds).buffer = [] := by
    rw [captureFold, hds, List.foldl_append, hx]
    simp only [List.foldl_cons, List.foldl_nil]
    rw [hfull _ x.1 x.2 hlen100 hxin]
  refine ⟨hbuf, ?_⟩
  intro hex lt t
  cases hn : (captureFold ds).new_data_available <;>
    simp [decode_nec, hn, hbuf, decodePulses]

/-- C6 witness: a burst of 101 valid 562µs pulses. -/
theorem c6_overflow_clear_witness :
    (captureFold (List.replicate 101 ((562 : Nat), (1 : Nat)))).buffer = []
    ∧ (decode_nec ⟨captureFold (List.replicate 101 ((562 : Nat), (1 : Nat))), Option.none, 0⟩ 0).1
        = DecodeResult.noRes := by
  have h := c6_overflow_clear.2 (List.replicate 101 ((562 : Nat), (1 : Nat)))
    (by decide) (by decide)
  exact ⟨h.1, h.2 Option.none 0 0⟩

lemma hexVal_isSome_ranges {c : Char} (h : (hexVal? c).isSome = true) :
    (48 ≤ c.toNat ∧ c.toNat ≤ 57) ∨ (97 ≤ c.toNat ∧ c.toNat ≤ 102)
    ∨ (65 ≤ c.toNat ∧ c.toNat ≤ 70) := by
  by_cases h1 : 48 ≤ c.toNat ∧ c.toNat ≤ 57
  · exact Or.inl h1
  by_cases h2 : 97 ≤ c.toNat ∧ c.toNat ≤ 102
  · exact Or.inr (Or.inl h2)
  by_cases h3 : 65 ≤ c.toNat ∧ c.toNat ≤ 70
  · exact Or.inr (Or.inr h3)
  rw [hexVal?, if_neg h1, if_neg h2, if_neg h3] at h
  simp at h

lemma hex_not_space {c : Char} (h : (hexVal? c).isSome = true) : isPySpace c = false := by
  rcases hexVal_isSome_ranges h with ⟨h1, h2⟩ | ⟨h1, h2⟩ | ⟨h1, h2⟩ <;>
    (simp only [isPySpace, decide_eq_false_iff_not]; omega)

lemma parseDigitsAux_all_hex : ∀ (cs : List Char) (acc nd : Nat),
    (∀ c ∈ cs, (hexVal? c).isSome = true) → (0 < nd ∨ cs ≠ []) →
    (parseDigitsAux cs acc nd).isSome = true := by
  intro cs
  induction cs with
  | nil =>
    intro acc nd _ hne
    rcases hne with h | h
    · simp [parseDigitsAux, h]
    · exact absurd rfl h
  | cons c r ih =>
    intro acc nd hall _
    have hc := hall c (List.mem_cons_self c r)
    obtain ⟨v, hv⟩ := Option.isSome_iff_exists.mp hc
    simp only [parseDigitsAux, hv]
    exact ih (acc * 16 + v) (nd + 1) (fun d hd => hall d (List.mem_cons_of_mem c hd))
      (Or.inl (Nat.succ_pos nd))

lemma pyIntParse16_hex8 (s : String) (hl : s.length = 8)
    (hall : ∀ c ∈ s.data, (hexVal? c).isSome = true) :
    (pyIntParse16 s).isSome = true := by
  match hs : s.data with
  | [] =>
    have : s.length = 0 := by rw [String.length, hs]; rfl
    omega
  | c0 :: r =>
    have hall' : ∀ c ∈ c0 :: r, (hexVal? c).isSome = true := by rw [← hs]; exact hall
    have hc0 := hall' c0 (List.mem_cons_self c0 r)
    rcases hexVal_isSome_ranges hc0 with ⟨ha, hb⟩ | ⟨ha, hb⟩ | ⟨ha, hb⟩ <;>
    · rw [pyIntParse16, hs, dropPySpaces, hex_not_space hc0]
      simp only [Bool.false_eq_true, if_false]
      rw [pySign, if_neg (by omega), if_neg (by omega)]
      have hstrip : pyStripHexPrefix (c0 :: r) = c0 :: r := by
        match r with
        | [] => rfl
        | cx :: r' =>
          have hcx := hall' cx (List.mem_cons_of_mem c0 (List.mem_cons_self cx r'))
          rcases hexVal_isSome_ranges hcx with ⟨hxa, hxb⟩ | ⟨hxa, hxb⟩ | ⟨hxa, hxb⟩ <;>
            (rw [pyStripHexPrefix, if_neg]; omega)
      simp only [hstrip]
      obtain ⟨v, hv⟩ := Option.isSome_iff_exists.mp
        (parseDigitsAux_all_hex (c0 :: r) 0 0 hall' (Or.inr (by simp)))
      simp [hv]

/-- C3 counterexample to the claim as stated: the 8-character string
`"+1234567"` is not made of 8 hexadecimal characters, yet
`send_full_nec_hex` accepts it (Python's `int(s, 16)` tolerates the sign)
and transmits. -/
theorem c3_hex_validation_cex :
    isHex8 "+1234567" = false ∧ (send_full_nec_hex "+1234567" 0).1 = true := by
  constructor
  · decide
  · decide

/-- C3 amended: `send_full_nec_hex` rejects (returns `False`, transmitting
nothing) exactly when the code argument is not an 8-character string
parseable by `int(·, 16)`; every string of exactly 8 hexadecimal characters
is accepted and transmitted, and every string whose length is not 8 is
rejected — but some 8-character strings that are not pure hexadecimal (a
sign, an `0x` prefix, whitespace or underscores) are also accepted. -/
theorem c3_hex_validation_amended :
    (∀ (s : String) (n : Nat),
      (send_full_nec_hex s n).1 = true ↔ s.length = 8 ∧ (pyIntParse16 s).isSome = true)
    ∧ (∀ (s : String) (n : Nat), isHex8 s = true → (send_full_nec_hex s n).1 = true)
    ∧ (∀ (s : String) (n : Nat),
        (send_full_nec_hex s n).1 = false → (send_full_nec_hex s n).2 = []) := by
  have hiff : ∀ (s : String) (n : Nat),
      (send_full_nec_hex s n).1 = true ↔ s.length = 8 ∧ (pyIntParse16 s).isSome = true := by
    intro s n
    by_cases hl : s.length = 8
    · rw [send_full_nec_hex, if_neg (fun h => h hl)]
      cases hp : pyIntParse16 s <;> simp [hp, hl]
    · rw [send_full_nec_hex, if_pos hl]
      simp [hl]
  refine ⟨hiff, ?_, ?_⟩
  · intro s n h
    simp only [isHex8, Bool.and_eq_true, decide_eq_true_eq, List.all_eq_true] at h
    exact (hiff s n).mpr ⟨h.1, pyIntParse16_hex8 s h.1 h.2⟩
  · intro s n h
    rw [send_full_nec_hex] at h ⊢
    by_cases hl : s.length ≠ 8
    · rw [if_pos hl]
    · rw [if_neg hl] at h ⊢
      cases hp : pyIntParse16 s
      · simp [hp]
      · simp [hp] at h

/-- C3 witness: the canonical 8-hex-digit code is accepted. -/
theorem c3_hex_validation_witness : (send_full_nec_hex "768910EF" 0).1 = true :=
  c3_hex_validation_amended.2.1 "768910EF" 0 (by decide)
